import Mathlib

/-!
# Crash-dump download handler (`main/main.c`)

A shallow embedding of `download_get_handler`: the handler streams the
core-dump partition over HTTP, one `esp_partition_read` followed by one
`httpd_resp_send_chunk` per block, and closes the response with a zero-length
chunk.

The two platform calls are the boundary of the program.  Each is modelled by an
oracle of the environment that fixes the value the call returns, and every call
is appended to a trace, so that the order, the arguments and the results of all
calls can be stated.

C `int` values are `Int`.  For `file_size >= 0` and `chunk_size > 0` every
`int` expression of the handler lies between `0` and `file_size`, so no signed
overflow occurs; the one narrowing conversion of the handler, the
initialisation of `uint16_t pending_size`, is reduction modulo `2 ^ 16`.
-/

namespace CoreDump

/-- One byte of flash or of a response body. -/
abbrev Byte := Fin 256

/-- The type `esp_err_t` is a C `int`. -/
abbrev esp_err_t := Int

/-- Success value of `esp_err_t`. -/
abbrev ESP_OK : esp_err_t := 0

/-- Generic failure value of `esp_err_t`. -/
abbrev ESP_FAIL : esp_err_t := -1

/-- Error of the partition API for an invalid argument (here: a NULL partition). -/
abbrev ESP_ERR_INVALID_ARG : esp_err_t := 258

/-- Error of the partition API for a read that does not fit in the partition. -/
abbrev ESP_ERR_INVALID_SIZE : esp_err_t := 260

/-- A call made by the handler, with its arguments and the value it returned. -/
inductive Event where
  /-- The call `esp_partition_read(partition, src_offset, dst, size)`. -/
  | partition_read (src_offset : Int) (size : Int) (ret : esp_err_t)
  /-- The call `httpd_resp_send_chunk(req, buf, buf_len)`; `buf = none` is `NULL`,
  otherwise `buf` holds the bytes of the buffer handed over. -/
  | send_chunk (buf : Option (List Byte)) (buf_len : Int) (ret : esp_err_t)
  deriving DecidableEq

/-- The environment of one request.

* `partition` is what `esp_partition_get (esp_partition_find ..)` yields:
  `none` for `NULL`, otherwise the contents of the core-dump partition;
* `read_fault j` is the result of the flash driver for the `j`-th call
  (from zero) of `esp_partition_read`;
* `send_result j` is the result of the `j`-th call (from zero) of
  `httpd_resp_send_chunk`. -/
structure Env where
  partition : Option (List Byte)
  read_fault : Nat → esp_err_t
  send_result : Nat → esp_err_t

/-- What the handler has done so far: the number of calls of each kind and the
trace of all calls, oldest first. -/
structure State where
  reads : Nat
  sends : Nat
  trace : List Event
  deriving DecidableEq

/-- The state on entry of the handler. -/
def State.init : State := ⟨0, 0, []⟩

/-- How a run of the handler ends. -/
inductive Outcome where
  /-- The handler executed `return ret;`. -/
  | returned (ret : esp_err_t)
  /-- An `ESP_ERROR_CHECK` failed: `abort()` was called and the handler never
  returns. -/
  | aborted
  deriving DecidableEq

/-- The bytes of `region` at offsets `[off, off + len)`. -/
def slice (region : List Byte) (off len : Int) : List Byte :=
  (region.drop off.toNat).take len.toNat

/-- The bytes of the partition of the environment; none when there is no
partition. -/
def contents (env : Env) : List Byte :=
  match env.partition with
  | none => []
  | some region => region

/-- Modelled from the spec: `esp_partition_read` belongs to the platform, the
sources only call it.  By the spec it is a storage-region read that returns
the raw bytes for an (offset, length), and it fails when the region was not
found or the underlying read fails.  This is the value returned by the `j`-th
call, made with arguments `src_offset` and `size`: the call fails on a `NULL`
partition, on a fault of the flash driver, and when
`[src_offset, src_offset + size)` does not lie inside the partition. -/
def read_result (env : Env) (j : Nat) (src_offset size : Int) : esp_err_t :=
  match env.partition with
  | none => ESP_ERR_INVALID_ARG
  | some region =>
    if env.read_fault j ≠ ESP_OK then env.read_fault j
    else if src_offset < 0 ∨ size < 0 ∨ (region.length : Int) < src_offset + size then
      ESP_ERR_INVALID_SIZE
    else ESP_OK

/-- The platform call `esp_partition_read(partition, src_offset, dst, size)`.
The result is the returned code, the contents of `dst` (the bytes of the
partition at `[src_offset, src_offset + size)`; they are meaningful only when
the code is `ESP_OK`), and the new state. -/
def esp_partition_read (env : Env) (st : State) (src_offset size : Int) :
    esp_err_t × List Byte × State :=
  (read_result env st.reads src_offset size,
    slice (contents env) src_offset size,
    ⟨st.reads + 1, st.sends,
      st.trace ++ [Event.partition_read src_offset size (read_result env st.reads src_offset size)]⟩)

/-- Modelled from the spec: `httpd_resp_send_chunk` belongs to the platform, the
sources only call it.  By the spec it writes one chunk of the response and
fails when the connection is closed or errors.  The call
`httpd_resp_send_chunk(req, buf, buf_len)` returns what the transport gives for
this call; the call is logged. -/
def httpd_resp_send_chunk (env : Env) (st : State) (buf : Option (List Byte)) (buf_len : Int) :
    esp_err_t × State :=
  (env.send_result st.sends,
    ⟨st.reads, st.sends + 1, st.trace ++ [Event.send_chunk buf buf_len (env.send_result st.sends)]⟩)

/-- Modelled from the spec: `ESP_ERROR_CHECK` is a macro of the platform
headers, the sources only use it.  By the spec a failed read is fatal to the
session and aborts it: the macro lets the run go on (`true`) when its argument
is `ESP_OK` and calls `abort()` (`false`) otherwise. -/
def ESP_ERROR_CHECK (x : esp_err_t) : Bool :=
  decide (x = ESP_OK)

/-- The loop of `download_get_handler`,

```
for (i = 0; i < (file_size / chunk_size); i++) {
  char store_data[chunk_size];
  ESP_ERROR_CHECK(esp_partition_read(partition, i * chunk_size, store_data, chunk_size));
  httpd_resp_send_chunk(req, store_data, chunk_size);
}
```

entered with the current value of `i`.  The value of `httpd_resp_send_chunk` is
discarded, as in the source.  The result is `none` when the fuel runs out,
`Except.error st` when the run was aborted in state `st`, and
`Except.ok (i, st)` when the loop is left with counter `i` in state `st`. -/
def full_blocks (env : Env) (file_size chunk_size : Int) :
    Nat → Int → State → Option (Except State (Int × State))
  | 0, _, _ => none
  | fuel + 1, i, st =>
    if i < Int.tdiv file_size chunk_size then
      match esp_partition_read env st (i * chunk_size) chunk_size with
      | (err, store_data, st1) =>
        if ESP_ERROR_CHECK err then
          match httpd_resp_send_chunk env st1 (some store_data) chunk_size with
          | (_, st2) => full_blocks env file_size chunk_size fuel (i + 1) st2
        else some (Except.error st1)
    else some (Except.ok (i, st))

/-- The part of `download_get_handler` after the loop,

```
uint16_t pending_size = file_size - (i * chunk_size);
char pending_data[pending_size];
if (pending_size > 0) {
  ESP_ERROR_CHECK(esp_partition_read(partition, i * chunk_size, pending_data, pending_size));
  httpd_resp_send_chunk(req, pending_data, pending_size);
}
httpd_resp_send_chunk(req, NULL, 0);
return ESP_OK;
```

The conversion to `uint16_t` is the reduction modulo `65536`; the array
`pending_data` is used only when `pending_size > 0`. -/
def pending_block (env : Env) (file_size chunk_size : Int) (i : Int) (st : State) :
    Outcome × State :=
  let pending_size : Int := (file_size - i * chunk_size) % 65536
  if pending_size > 0 then
    match esp_partition_read env st (i * chunk_size) pending_size with
    | (err, pending_data, st1) =>
      if ESP_ERROR_CHECK err then
        match httpd_resp_send_chunk env st1 (some pending_data) pending_size with
        | (_, st2) =>
          match httpd_resp_send_chunk env st2 none 0 with
          | (_, st3) => (Outcome.returned ESP_OK, st3)
      else (Outcome.aborted, st1)
  else
    match httpd_resp_send_chunk env st none 0 with
    | (_, st3) => (Outcome.returned ESP_OK, st3)

/-- The body of `download_get_handler` with the two local constants
`file_size` and `chunk_size` as parameters.  The calls that set the content
type and the `Content-Disposition` header come first in the source and touch
neither the partition nor the chunks; they are not part of the trace.  The loop
is given `file_size / chunk_size + 1` units of fuel. -/
def download_get_handler_with (env : Env) (file_size chunk_size : Int) :
    Option (Outcome × State) :=
  match full_blocks env file_size chunk_size
      ((Int.tdiv file_size chunk_size).toNat + 1) 0 State.init with
  | none => none
  | some (Except.error st) => some (Outcome.aborted, st)
  | some (Except.ok (i, st)) => some (pending_block env file_size chunk_size i st)

/-- The handler `download_get_handler` as compiled: `file_size = 65536` and
`chunk_size = 1024`. -/
def download_get_handler (env : Env) : Option (Outcome × State) :=
  download_get_handler_with env 65536 1024

/-! ## Observations on a trace -/

/-- The chunks handed to `httpd_resp_send_chunk`, oldest first, each as the pair
of its buffer and its length argument. -/
def sent_chunks : List Event → List (Option (List Byte) × Int)
  | [] => []
  | Event.send_chunk buf buf_len _ :: es => (buf, buf_len) :: sent_chunks es
  | Event.partition_read _ _ _ :: es => sent_chunks es

/-- The `(src_offset, size)` arguments of the calls of `esp_partition_read`,
oldest first. -/
def read_calls : List Event → List (Int × Int)
  | [] => []
  | Event.partition_read src_offset size _ :: es => (src_offset, size) :: read_calls es
  | Event.send_chunk _ _ _ :: es => read_calls es

/-- The bytes a chunk puts on the wire: the first `buf_len` bytes of the
buffer, none for a `NULL` buffer. -/
def payload (c : Option (List Byte) × Int) : List Byte :=
  match c.1 with
  | none => []
  | some bytes => bytes.take c.2.toNat

/-- The response body: the payloads of all chunks, in the order written. -/
def body (es : List Event) : List Byte :=
  ((sent_chunks es).map payload).flatten

/-- The data chunks of a trace: the chunks other than zero-length ones. -/
def data_chunks (es : List Event) : List (Option (List Byte) × Int) :=
  (sent_chunks es).filter (fun c => decide (c.2 ≠ 0))

/-! ## The state and the trace of a run whose reads succeed -/

/-- The state after one pass of the loop body for counter `i` whose read
succeeded. -/
def block_done (env : Env) (chunk_size : Int) (i : Int) (st : State) : State :=
  ⟨st.reads + 1, st.sends + 1,
    st.trace ++
      [Event.partition_read (i * chunk_size) chunk_size ESP_OK,
        Event.send_chunk (some (slice (contents env) (i * chunk_size) chunk_size)) chunk_size
          (env.send_result st.sends)]⟩

/-- The state after `n` passes of the loop body, from counter `i`, whose reads
all succeeded. -/
def blocks_done (env : Env) (chunk_size : Int) : Nat → Int → State → State
  | 0, _, st => st
  | n + 1, i, st => blocks_done env chunk_size n (i + 1) (block_done env chunk_size i st)

/-- The calls of `n` passes of the loop body, from counter `i`, whose reads all
succeeded; `s` is the number of chunks sent before. -/
def blocks_trace (env : Env) (chunk_size : Int) : Nat → Int → Nat → List Event
  | 0, _, _ => []
  | n + 1, i, s =>
    Event.partition_read (i * chunk_size) chunk_size ESP_OK ::
      Event.send_chunk (some (slice (contents env) (i * chunk_size) chunk_size)) chunk_size
        (env.send_result s) ::
      blocks_trace env chunk_size n (i + 1) (s + 1)

/-- The value of `pending_size` after `q` full blocks. -/
def pending_size_of (file_size chunk_size : Int) (q : Nat) : Int :=
  (file_size - q * chunk_size) % 65536

/-- The calls after the loop when the read of the remainder, if there is one,
succeeds; `q` full blocks were sent before. -/
def tail_trace (env : Env) (file_size chunk_size : Int) (q : Nat) : List Event :=
  if 0 < pending_size_of file_size chunk_size q then
    [Event.partition_read (q * chunk_size) (pending_size_of file_size chunk_size q) ESP_OK,
      Event.send_chunk
        (some (slice (contents env) (q * chunk_size) (pending_size_of file_size chunk_size q)))
        (pending_size_of file_size chunk_size q) (env.send_result q),
      Event.send_chunk none 0 (env.send_result (q + 1))]
  else [Event.send_chunk none 0 (env.send_result q)]

/-- The whole trace of a run in which every read succeeds. -/
def success_trace (env : Env) (file_size chunk_size : Int) : List Event :=
  blocks_trace env chunk_size (file_size / chunk_size).toNat 0 0 ++
    tail_trace env file_size chunk_size (file_size / chunk_size).toNat

/-- Every read of the environment succeeds on a partition with contents
`region`: the partition was found and the flash driver reports no fault. -/
def reads_succeed (env : Env) (region : List Byte) : Prop :=
  env.partition = some region ∧ ∀ j, env.read_fault j = ESP_OK

/-- Every chunk write of the environment succeeds. -/
def sends_succeed (env : Env) : Prop :=
  ∀ j, env.send_result j = ESP_OK

/-! ## Concrete environments -/

/-- A partition of 64 KiB of zero bytes. -/
def zero_region : List Byte := List.replicate 65536 0

/-- An environment with a partition of 64 KiB in which every call succeeds. -/
def healthy_env : Env := ⟨some zero_region, fun _ => ESP_OK, fun _ => ESP_OK⟩

/-- An environment in which the lookup of the partition failed. -/
def no_partition_env : Env := ⟨none, fun _ => ESP_OK, fun _ => ESP_OK⟩

/-- An environment whose transport accepts ten chunks and fails every chunk
write from the eleventh on. -/
def broken_pipe_env : Env :=
  ⟨some zero_region, fun _ => ESP_OK, fun j => if j < 10 then ESP_OK else ESP_FAIL⟩

/-- An environment whose flash driver fails the fourth read (call number
three, counted from zero). -/
def flash_fault_env : Env :=
  ⟨some zero_region, fun j => if j = 3 then ESP_FAIL else ESP_OK, fun _ => ESP_OK⟩

/-- The `size` argument of the read of block `k`: `chunk_size` for a full
block, `pending_size` for the remainder. -/
def block_size (file_size chunk_size : Int) (k : Nat) : Int :=
  if k < (file_size / chunk_size).toNat then chunk_size
  else pending_size_of file_size chunk_size k

/-! ## Lemmas on the platform calls and the loop -/

theorem read_result_ok (env : Env) (region : List Byte) (j : Nat) (off sz : Int)
    (hr : reads_succeed env region) (h0 : 0 ≤ off) (h1 : 0 ≤ sz)
    (h2 : off + sz ≤ (region.length : Int)) :
    read_result env j off sz = ESP_OK := by
  have h3 : ¬ (off < 0 ∨ sz < 0 ∨ (region.length : Int) < off + sz) := by omega
  simp [read_result, hr.1, hr.2 j, h3]

theorem contents_eq (env : Env) (region : List Byte) (hr : reads_succeed env region) :
    contents env = region := by
  simp [contents, hr.1]

theorem full_blocks_step_ok (env : Env) (N B : Int) (fuel : Nat) (i : Int) (st : State)
    (hq : i < Int.tdiv N B) (hf : read_result env st.reads (i * B) B = ESP_OK) :
    full_blocks env N B (fuel + 1) i st =
      full_blocks env N B fuel (i + 1) (block_done env B i st) := by
  rw [full_blocks, if_pos hq]
  simp [esp_partition_read, httpd_resp_send_chunk, block_done, ESP_ERROR_CHECK, hf]

theorem full_blocks_step_fail (env : Env) (N B : Int) (fuel : Nat) (i : Int) (st : State)
    (hq : i < Int.tdiv N B) (hf : read_result env st.reads (i * B) B ≠ ESP_OK) :
    full_blocks env N B (fuel + 1) i st =
      some (Except.error ⟨st.reads + 1, st.sends,
        st.trace ++ [Event.partition_read (i * B) B (read_result env st.reads (i * B) B)]⟩) := by
  rw [full_blocks, if_pos hq]
  simp [esp_partition_read, ESP_ERROR_CHECK, hf]

theorem full_blocks_exit (env : Env) (N B : Int) (fuel : Nat) (i : Int) (st : State)
    (hq : ¬ i < Int.tdiv N B) :
    full_blocks env N B (fuel + 1) i st = some (Except.ok (i, st)) := by
  rw [full_blocks, if_neg hq]

theorem blocks_done_reads (env : Env) (B : Int) (n : Nat) (i : Int) (st : State) :
    (blocks_done env B n i st).reads = st.reads + n := by
  induction n generalizing i st with
  | zero => rfl
  | succ n ih => rw [blocks_done, ih]; simp [block_done]; omega

theorem blocks_done_sends (env : Env) (B : Int) (n : Nat) (i : Int) (st : State) :
    (blocks_done env B n i st).sends = st.sends + n := by
  induction n generalizing i st with
  | zero => rfl
  | succ n ih => rw [blocks_done, ih]; simp [block_done]; omega

theorem blocks_done_trace (env : Env) (B : Int) (n : Nat) (i : Int) (st : State) :
    (blocks_done env B n i st).trace = st.trace ++ blocks_trace env B n i st.sends := by
  induction n generalizing i st with
  | zero => simp [blocks_done, blocks_trace]
  | succ n ih => rw [blocks_done, ih]; simp [block_done, blocks_trace]

theorem blocks_done_init (env : Env) (B : Int) (n : Nat) :
    blocks_done env B n 0 State.init = ⟨n, n, blocks_trace env B n 0 0⟩ := by
  have h1 := blocks_done_reads env B n 0 State.init
  have h2 := blocks_done_sends env B n 0 State.init
  have h3 := blocks_done_trace env B n 0 State.init
  simp only [State.init, Nat.zero_add, List.nil_append] at h1 h2 h3
  cases h : blocks_done env B n 0 State.init with
  | mk r s t =>
    simp only [State.init] at h
    rw [h] at h1 h2 h3
    simp only at h1 h2 h3
    rw [h1, h2, h3]

theorem full_blocks_run (env : Env) (N B : Int) (fuel n : Nat) (i : Int) (st : State)
    (hf : ∀ j : Nat, j < n → read_result env (st.reads + j) ((i + j) * B) B = ESP_OK)
    (hq : i + n ≤ Int.tdiv N B) :
    full_blocks env N B (fuel + n) i st =
      full_blocks env N B fuel (i + n) (blocks_done env B n i st) := by
  induction n generalizing i st with
  | zero => simp [blocks_done]
  | succ n ih =>
    have h0 := hf 0 (Nat.succ_pos n)
    simp only [Nat.add_zero, Nat.cast_zero, add_zero] at h0
    have hstep := full_blocks_step_ok env N B (fuel + n) i st
      (by push_cast at hq; omega) h0
    have hcast : i + 1 + (n : Int) = i + ((n + 1 : Nat) : Int) := by push_cast; ring
    have hih := ih (i + 1) (block_done env B i st)
      (by
        intro j hj
        have h := hf (j + 1) (by omega)
        have e1 : (block_done env B i st).reads + j = st.reads + (j + 1) := by
          simp [block_done]; omega
        have e2 : (i + 1 + (j : Int)) = i + ((j + 1 : Nat) : Int) := by push_cast; ring
        rw [e1, e2]; exact h)
      (by rw [hcast]; exact hq)
    rw [show fuel + (n + 1) = (fuel + n) + 1 from rfl, hstep, hih, blocks_done, hcast]

theorem pending_block_ok (env : Env) (N B : Int) (q : Nat) (st : State)
    (hs : st.sends = q)
    (hrem : 0 < pending_size_of N B q →
      read_result env st.reads (q * B) (pending_size_of N B q) = ESP_OK) :
    (pending_block env N B q st).1 = Outcome.returned ESP_OK ∧
      (pending_block env N B q st).2.trace = st.trace ++ tail_trace env N B q := by
  by_cases hp : 0 < pending_size_of N B q
  · have hr := hrem hp
    simp only [pending_size_of] at hp hr
    simp [pending_block, tail_trace, pending_size_of, esp_partition_read,
      httpd_resp_send_chunk, ESP_ERROR_CHECK, hp, hr, hs]
  · simp only [pending_size_of] at hp
    simp [pending_block, tail_trace, pending_size_of, httpd_resp_send_chunk, hp, hs]

theorem pending_block_fail (env : Env) (N B : Int) (q : Nat) (st : State)
    (hp : 0 < pending_size_of N B q)
    (hfail : read_result env st.reads (q * B) (pending_size_of N B q) ≠ ESP_OK) :
    pending_block env N B q st =
      (Outcome.aborted, ⟨st.reads + 1, st.sends,
        st.trace ++ [Event.partition_read (q * B) (pending_size_of N B q)
          (read_result env st.reads (q * B) (pending_size_of N B q))]⟩) := by
  simp only [pending_size_of] at hp hfail
  simp [pending_block, pending_size_of, esp_partition_read, ESP_ERROR_CHECK, hp, hfail]

theorem tdiv_toNat (N B : Int) (hN : 0 ≤ N) (hB : 0 < B) :
    Int.tdiv N B = ((N / B).toNat : Int) := by
  rw [Int.tdiv_eq_ediv hN (le_of_lt hB), Int.toNat_of_nonneg (Int.ediv_nonneg hN (le_of_lt hB))]

/-- A run in which the reads of all full blocks and of the remainder succeed
returns `ESP_OK` with the trace `success_trace`. -/
theorem run_success (env : Env) (N B : Int) (hN : 0 ≤ N) (hB : 0 < B)
    (hfull : ∀ j : Nat, j < (N / B).toNat → read_result env j (j * B) B = ESP_OK)
    (hrem : 0 < pending_size_of N B (N / B).toNat →
      read_result env (N / B).toNat ((N / B).toNat * B)
        (pending_size_of N B (N / B).toNat) = ESP_OK) :
    (download_get_handler_with env N B).map (fun r => (r.1, r.2.trace)) =
      some (Outcome.returned ESP_OK, success_trace env N B) := by
  have htd := tdiv_toNat N B hN hB
  have hrun := full_blocks_run env N B 1 (N / B).toNat 0 State.init
    (by intro j hj; simpa [State.init] using hfull j hj) (by rw [htd]; simp)
  have hexit := full_blocks_exit env N B 0 (0 + ((N / B).toNat : Int))
    (blocks_done env B (N / B).toNat 0 State.init) (by rw [htd]; simp)
  rw [Nat.add_comm 1 _] at hrun
  rw [Nat.zero_add] at hexit
  rw [download_get_handler_with, htd, Int.toNat_ofNat, hrun, hexit, blocks_done_init]
  have hpb := pending_block_ok env N B (N / B).toNat
    ⟨(N / B).toNat, (N / B).toNat, blocks_trace env B (N / B).toNat 0 0⟩ rfl hrem
  simp only [Option.map_some', zero_add]
  rw [hpb.1, hpb.2, success_trace]

/-- A run in which the read of full block `k` is the first read to fail is
aborted right after that read. -/
theorem run_fail_full (env : Env) (N B : Int) (k : Nat) (hN : 0 ≤ N) (hB : 0 < B)
    (hk : k < (N / B).toNat)
    (hprev : ∀ j : Nat, j < k → read_result env j (j * B) B = ESP_OK)
    (hfail : read_result env k (k * B) B ≠ ESP_OK) :
    download_get_handler_with env N B =
      some (Outcome.aborted, ⟨k + 1, k,
        blocks_trace env B k 0 0 ++
          [Event.partition_read (k * B) B (read_result env k (k * B) B)]⟩) := by
  have htd := tdiv_toNat N B hN hB
  obtain ⟨d, hd⟩ : ∃ d, (N / B).toNat + 1 = (d + 1) + k := ⟨(N / B).toNat - k, by omega⟩
  have hrun := full_blocks_run env N B (d + 1) k 0 State.init
    (by intro j hj; simpa [State.init] using hprev j hj)
    (by rw [htd]; simp; omega)
  have hstep := full_blocks_step_fail env N B d (0 + (k : Int)) (blocks_done env B k 0 State.init)
    (by rw [htd]; simp; omega)
    (by rw [blocks_done_init]; simpa using hfail)
  rw [download_get_handler_with, htd, Int.toNat_ofNat, hd, hrun, hstep, blocks_done_init]
  simp

/-- A run in which all full blocks are read and the read of the remainder
fails is aborted right after that read. -/
theorem run_fail_pending (env : Env) (N B : Int) (hN : 0 ≤ N) (hB : 0 < B)
    (hfull : ∀ j : Nat, j < (N / B).toNat → read_result env j (j * B) B = ESP_OK)
    (hp : 0 < pending_size_of N B (N / B).toNat)
    (hfail : read_result env (N / B).toNat ((N / B).toNat * B)
      (pending_size_of N B (N / B).toNat) ≠ ESP_OK) :
    download_get_handler_with env N B =
      some (Outcome.aborted, ⟨(N / B).toNat + 1, (N / B).toNat,
        blocks_trace env B (N / B).toNat 0 0 ++
          [Event.partition_read ((N / B).toNat * B) (pending_size_of N B (N / B).toNat)
            (read_result env (N / B).toNat ((N / B).toNat * B)
              (pending_size_of N B (N / B).toNat))]⟩) := by
  have htd := tdiv_toNat N B hN hB
  have hrun := full_blocks_run env N B 1 (N / B).toNat 0 State.init
    (by intro j hj; simpa [State.init] using hfull j hj) (by rw [htd]; simp)
  have hexit := full_blocks_exit env N B 0 (0 + ((N / B).toNat : Int))
    (blocks_done env B (N / B).toNat 0 State.init) (by rw [htd]; simp)
  rw [Nat.add_comm 1 _] at hrun
  rw [Nat.zero_add] at hexit
  rw [download_get_handler_with, htd, Int.toNat_ofNat, hrun, hexit, blocks_done_init]
  have hpb := pending_block_fail env N B (N / B).toNat
    ⟨(N / B).toNat, (N / B).toNat, blocks_trace env B (N / B).toNat 0 0⟩ hp hfail
  simp only [zero_add]
  rw [hpb]

/-! ## Lemmas on the observations -/

theorem sent_chunks_append (a b : List Event) :
    sent_chunks (a ++ b) = sent_chunks a ++ sent_chunks b := by
  induction a with
  | nil => rfl
  | cons e es ih => cases e <;> simp [sent_chunks, ih]

theorem read_calls_append (a b : List Event) :
    read_calls (a ++ b) = read_calls a ++ read_calls b := by
  induction a with
  | nil => rfl
  | cons e es ih => cases e <;> simp [read_calls, ih]

theorem sent_chunks_blocks (env : Env) (B : Int) (n : Nat) (i : Int) (s : Nat) :
    sent_chunks (blocks_trace env B n i s) =
      (List.range n).map (fun k : Nat => (some (slice (contents env) ((i + k) * B) B), B)) := by
  induction n generalizing i s with
  | zero => rfl
  | succ n ih =>
    rw [blocks_trace, sent_chunks, sent_chunks, ih, List.range_succ_eq_map, List.map_cons,
      List.map_map]
    congr 1
    · simp
    · apply List.map_congr_left
      intro k _
      simp only [Function.comp, Nat.succ_eq_add_one, Nat.cast_add, Nat.cast_one]
      rw [show i + 1 + (k : Int) = i + ((k : Int) + 1) by ring]

theorem read_calls_blocks (env : Env) (B : Int) (n : Nat) (i : Int) (s : Nat) :
    read_calls (blocks_trace env B n i s) =
      (List.range n).map (fun k : Nat => ((i + k) * B, B)) := by
  induction n generalizing i s with
  | zero => rfl
  | succ n ih =>
    rw [blocks_trace, read_calls, read_calls, ih, List.range_succ_eq_map, List.map_cons,
      List.map_map]
    congr 1
    · simp
    · apply List.map_congr_left
      intro k _
      simp only [Function.comp, Nat.succ_eq_add_one, Nat.cast_add, Nat.cast_one]
      rw [show i + 1 + (k : Int) = i + ((k : Int) + 1) by ring]

theorem sent_chunks_blocks_zero (env : Env) (B : Int) (n : Nat) :
    sent_chunks (blocks_trace env B n 0 0) =
      (List.range n).map (fun k : Nat => (some (slice (contents env) (k * B) B), B)) := by
  rw [sent_chunks_blocks]
  simp

theorem read_calls_blocks_zero (env : Env) (B : Int) (n : Nat) :
    read_calls (blocks_trace env B n 0 0) =
      (List.range n).map (fun k : Nat => ((k : Int) * B, B)) := by
  rw [read_calls_blocks]
  simp

theorem sent_chunks_tail (env : Env) (N B : Int) (q : Nat) :
    sent_chunks (tail_trace env N B q) =
      (if 0 < pending_size_of N B q then
        [(some (slice (contents env) (q * B) (pending_size_of N B q)), pending_size_of N B q)]
      else []) ++ [(none, 0)] := by
  by_cases hp : 0 < pending_size_of N B q <;> simp [tail_trace, hp, sent_chunks]

theorem read_calls_tail (env : Env) (N B : Int) (q : Nat) :
    read_calls (tail_trace env N B q) =
      if 0 < pending_size_of N B q then [((q : Int) * B, pending_size_of N B q)] else [] := by
  by_cases hp : 0 < pending_size_of N B q <;> simp [tail_trace, hp, read_calls]

theorem slice_append (region : List Byte) (off a b : Int) (h0 : 0 ≤ off) (ha : 0 ≤ a)
    (hb : 0 ≤ b) :
    slice region off a ++ slice region (off + a) b = slice region off (a + b) := by
  simp only [slice]
  rw [Int.toNat_add h0 ha, Int.toNat_add ha hb, List.take_add, List.drop_drop]

theorem payload_slice (region : List Byte) (off len : Int) :
    payload (some (slice region off len), len) = slice region off len := by
  simp [payload, slice, List.take_take]

theorem body_blocks (env : Env) (B : Int) (n : Nat) (i : Int) (s : Nat) (hi : 0 ≤ i)
    (hB : 0 ≤ B) :
    body (blocks_trace env B n i s) = slice (contents env) (i * B) (n * B) := by
  induction n generalizing i s with
  | zero => simp [body, blocks_trace, sent_chunks, slice]
  | succ n ih =>
    have h := ih (i + 1) (s + 1) (by omega)
    simp only [body] at h ⊢
    rw [blocks_trace, sent_chunks, sent_chunks, List.map_cons, List.flatten_cons, h,
      payload_slice]
    have e1 : (i + 1) * B = i * B + B := by ring
    have e2 : ((n + 1 : Nat) : Int) * B = B + n * B := by push_cast; ring
    rw [e1, e2]
    exact slice_append _ _ _ _ (Int.mul_nonneg hi hB) hB
      (Int.mul_nonneg (Int.ofNat_nonneg n) hB)

theorem map_trace_some {x : Option (Outcome × State)} {o : Outcome} {t : List Event}
    (h : x.map (fun r => (r.1, r.2.trace)) = some (o, t)) :
    ∃ st, x = some (o, st) ∧ st.trace = t := by
  cases x with
  | none => simp at h
  | some r =>
    obtain ⟨o1, st⟩ := r
    simp only [Option.map_some', Option.some.injEq, Prod.mk.injEq] at h
    exact ⟨st, by rw [h.1], h.2⟩

/-! ## Runs on an environment whose reads succeed -/

theorem div_facts (N B : Int) (hN : 0 ≤ N) (hB : 0 < B) :
    ((N / B).toNat : Int) * B + N % B = N ∧ 0 ≤ N % B ∧ N % B < B := by
  rw [Int.toNat_of_nonneg (Int.ediv_nonneg hN (le_of_lt hB))]
  exact ⟨Int.ediv_add_emod' N B, Int.emod_nonneg N (ne_of_gt hB), Int.emod_lt_of_pos N hB⟩

theorem pending_size_eq (N B : Int) (hN : 0 ≤ N) (hB : 0 < B) :
    pending_size_of N B (N / B).toNat = N % B % 65536 := by
  have h := (div_facts N B hN hB).1
  rw [pending_size_of, show N - ((N / B).toNat : Int) * B = N % B by omega]

theorem pending_size_le (N B : Int) (hN : 0 ≤ N) (hB : 0 < B) :
    0 ≤ pending_size_of N B (N / B).toNat ∧ pending_size_of N B (N / B).toNat ≤ N % B := by
  have h := div_facts N B hN hB
  rw [pending_size_eq N B hN hB]
  omega

theorem full_reads_ok (env : Env) (region : List Byte) (N B : Int)
    (hr : reads_succeed env region) (hN : 0 ≤ N) (hB : 0 < B)
    (hlen : N ≤ (region.length : Int)) (j : Nat) (hj : j < (N / B).toNat) :
    read_result env j (j * B) B = ESP_OK := by
  have h := div_facts N B hN hB
  have h1 : ((j : Int) + 1) * B ≤ ((N / B).toNat : Int) * B :=
    Int.mul_le_mul_of_nonneg_right (by omega) (le_of_lt hB)
  have h2 : ((j : Int) + 1) * B = j * B + B := by ring
  exact read_result_ok env region j _ _ hr (Int.mul_nonneg (Int.ofNat_nonneg j) (le_of_lt hB))
    (le_of_lt hB) (by omega)

theorem pending_read_ok (env : Env) (region : List Byte) (N B : Int)
    (hr : reads_succeed env region) (hN : 0 ≤ N) (hB : 0 < B)
    (hlen : N ≤ (region.length : Int)) :
    read_result env (N / B).toNat ((N / B).toNat * B) (pending_size_of N B (N / B).toNat) =
      ESP_OK := by
  have h := div_facts N B hN hB
  have hp := pending_size_le N B hN hB
  exact read_result_ok env region _ _ _ hr
    (Int.mul_nonneg (Int.ofNat_nonneg _) (le_of_lt hB)) hp.1 (by omega)

/-- On an environment whose reads succeed and whose partition holds at least
`N` bytes the handler returns `ESP_OK` with the trace `success_trace`. -/
theorem run_ok (env : Env) (region : List Byte) (N B : Int)
    (hr : reads_succeed env region) (hN : 0 ≤ N) (hB : 0 < B)
    (hlen : N ≤ (region.length : Int)) :
    ∃ st, download_get_handler_with env N B = some (Outcome.returned ESP_OK, st) ∧
      st.trace = success_trace env N B :=
  map_trace_some (run_success env N B hN hB
    (fun j hj => full_reads_ok env region N B hr hN hB hlen j hj)
    (fun _ => pending_read_ok env region N B hr hN hB hlen))

theorem sent_chunks_success (env : Env) (N B : Int) :
    sent_chunks (success_trace env N B) =
      (List.range (N / B).toNat).map
          (fun k : Nat => (some (slice (contents env) (k * B) B), B)) ++
        ((if 0 < pending_size_of N B (N / B).toNat then
          [(some (slice (contents env) ((N / B).toNat * B) (pending_size_of N B (N / B).toNat)),
            pending_size_of N B (N / B).toNat)]
        else []) ++ [(none, 0)]) := by
  rw [success_trace, sent_chunks_append, sent_chunks_blocks_zero, sent_chunks_tail]

theorem read_calls_success (env : Env) (N B : Int) :
    read_calls (success_trace env N B) =
      (List.range (N / B).toNat).map (fun k : Nat => ((k : Int) * B, B)) ++
        (if 0 < pending_size_of N B (N / B).toNat then
          [(((N / B).toNat : Int) * B, pending_size_of N B (N / B).toNat)]
        else []) := by
  rw [success_trace, read_calls_append, read_calls_blocks_zero, read_calls_tail]

theorem body_success (env : Env) (N B : Int) (hN : 0 ≤ N) (hB : 0 < B) :
    body (success_trace env N B) =
      (contents env).take
        (((N / B).toNat : Int) * B + pending_size_of N B (N / B).toNat).toNat := by
  have hp := pending_size_le N B hN hB
  have hq : 0 ≤ ((N / B).toNat : Int) * B := Int.mul_nonneg (Int.ofNat_nonneg _) (le_of_lt hB)
  have hb := body_blocks env B (N / B).toNat 0 0 (le_refl 0) (le_of_lt hB)
  have hsl : ∀ len : Int, slice (contents env) 0 len = (contents env).take len.toNat := by
    intro len; simp [slice]
  simp only [body] at hb ⊢
  rw [success_trace, sent_chunks_append, List.map_append, List.flatten_append, hb,
    sent_chunks_tail]
  by_cases h : 0 < pending_size_of N B (N / B).toNat
  · rw [if_pos h]
    simp only [List.singleton_append, List.map_cons, List.map_nil, List.flatten_cons,
      List.flatten_nil, payload_slice]
    have hnil : payload (none, 0) = [] := rfl
    rw [hnil, List.append_nil, List.append_nil, zero_mul]
    have := slice_append (contents env) 0 (((N / B).toNat : Int) * B)
      (pending_size_of N B (N / B).toNat) (le_refl 0) hq hp.1
    rw [zero_add] at this
    rw [this, hsl]
  · rw [if_neg h]
    have h0 : pending_size_of N B (N / B).toNat = 0 := by omega
    have hnil : payload (none, 0) = [] := rfl
    simp only [List.nil_append, List.map_cons, List.map_nil, List.flatten_cons,
      List.flatten_nil, hnil, List.append_nil, zero_mul, h0, add_zero]
    rw [hsl]

/-! ## The data chunks of a successful run -/

theorem data_lens_success (env : Env) (N B : Int) (hB : 0 < B) :
    (data_chunks (success_trace env N B)).map Prod.snd =
      List.replicate (N / B).toNat B ++
        (if 0 < pending_size_of N B (N / B).toNat then [pending_size_of N B (N / B).toNat]
        else []) := by
  have hfull : ∀ c ∈ (List.range (N / B).toNat).map
      (fun k : Nat => (some (slice (contents env) (k * B) B), B)),
      decide (c.2 ≠ 0) = true := by
    intro c hc
    obtain ⟨k, _, rfl⟩ := List.mem_map.1 hc
    simpa using ne_of_gt hB
  rw [data_chunks, sent_chunks_success, List.filter_append, List.filter_append,
    List.filter_eq_self.2 hfull, List.map_append, List.map_map]
  have hconst : (Prod.snd ∘ fun k : Nat => (some (slice (contents env) (k * B) B), B)) =
      fun _ => B := rfl
  rw [hconst, List.map_const', List.length_range]
  by_cases hp : 0 < pending_size_of N B (N / B).toNat
  · simp [hp, ne_of_gt hp]
  · simp [hp]

theorem ceil_div (N B : Int) (hN : 0 ≤ N) (hB : 0 < B) :
    (N + B - 1) / B = ((N / B).toNat : Int) + (if N % B = 0 then 0 else 1) := by
  have h := div_facts N B hN hB
  by_cases hr : N % B = 0
  · rw [if_pos hr]
    refine ((@Int.ediv_emod_unique (N + B - 1) B (B - 1) (((N / B).toNat : Int) + 0) hB).2
      ⟨?_, ?_, ?_⟩).1
    · have e : B * (((N / B).toNat : Int) + 0) = ((N / B).toNat : Int) * B := by ring
      rw [e]; omega
    · omega
    · omega
  · rw [if_neg hr]
    refine ((@Int.ediv_emod_unique (N + B - 1) B (N % B - 1) (((N / B).toNat : Int) + 1) hB).2
      ⟨?_, ?_, ?_⟩).1
    · have e : B * (((N / B).toNat : Int) + 1) = ((N / B).toNat : Int) * B + B := by ring
      rw [e]; omega
    · omega
    · omega

theorem sum_replicate_int (n : Nat) (B : Int) : (List.replicate n B).sum = n * B := by
  induction n with
  | zero => simp
  | succ n ih => rw [List.replicate_succ, List.sum_cons, ih]; push_cast; ring

theorem full_offsets_lt (B : Int) (hB : 0 < B) (n : Nat) :
    ((List.range n).map (fun j : Nat => (j : Int) * B)).Pairwise (fun a b => a < b) := by
  apply List.Pairwise.map _ _ (List.pairwise_lt_range n)
  intro a b hab
  exact Int.mul_lt_mul_of_pos_right (by exact_mod_cast hab) hB

theorem range_map_succ {α : Type} (f : Nat → α) (n : Nat) :
    (List.range n).map f ++ [f n] = (List.range (n + 1)).map f := by
  rw [List.range_succ, List.map_append, List.map_singleton]

/-- For every environment the run ends, and the reads it made are the reads of
the first `k` full blocks, for some `k` up to `N / B`, or the reads of all full
blocks followed by the read of the remainder. -/
theorem reads_shape (env : Env) (N B : Int) (hN : 0 ≤ N) (hB : 0 < B) :
    ∃ o st, download_get_handler_with env N B = some (o, st) ∧
      ((∃ k : Nat, k ≤ (N / B).toNat ∧
          read_calls st.trace = (List.range k).map (fun j : Nat => ((j : Int) * B, B))) ∨
        (0 < pending_size_of N B (N / B).toNat ∧
          read_calls st.trace =
            (List.range (N / B).toNat).map (fun j : Nat => ((j : Int) * B, B)) ++
              [(((N / B).toNat : Int) * B, pending_size_of N B (N / B).toNat)])) := by
  by_cases hall : ∀ j : Nat, j < (N / B).toNat → read_result env j (j * B) B = ESP_OK
  · by_cases hp : 0 < pending_size_of N B (N / B).toNat
    · by_cases hrd : read_result env (N / B).toNat ((N / B).toNat * B)
          (pending_size_of N B (N / B).toNat) = ESP_OK
      · obtain ⟨st, h1, h2⟩ := map_trace_some (run_success env N B hN hB hall (fun _ => hrd))
        refine ⟨_, st, h1, Or.inr ⟨hp, ?_⟩⟩
        rw [h2, read_calls_success, if_pos hp]
      · refine ⟨_, _, run_fail_pending env N B hN hB hall hp hrd, Or.inr ⟨hp, ?_⟩⟩
        simp only
        rw [read_calls_append, read_calls_blocks_zero]
        simp [read_calls]
    · obtain ⟨st, h1, h2⟩ := map_trace_some
        (run_success env N B hN hB hall (fun h => absurd h hp))
      refine ⟨_, st, h1, Or.inl ⟨(N / B).toNat, le_refl _, ?_⟩⟩
      rw [h2, read_calls_success, if_neg hp, List.append_nil]
  · have hex : ∃ j : Nat, j < (N / B).toNat ∧ read_result env j (j * B) B ≠ ESP_OK := by
      by_contra hcon
      apply hall
      intro j hj
      by_contra hne
      exact hcon ⟨j, hj, hne⟩
    classical
    have hspec := Nat.find_spec hex
    have hmin : ∀ j : Nat, j < Nat.find hex → read_result env j (j * B) B = ESP_OK := by
      intro j hj
      by_contra hne
      exact Nat.find_min hex hj ⟨lt_trans hj hspec.1, hne⟩
    refine ⟨_, _, run_fail_full env N B (Nat.find hex) hN hB hspec.1 hmin hspec.2,
      Or.inl ⟨Nat.find hex + 1, hspec.1, ?_⟩⟩
    simp only
    rw [read_calls_append, read_calls_blocks_zero, ← range_map_succ]
    simp [read_calls]

/-! ## The claims -/

theorem body_success_exact (env : Env) (region : List Byte) (N B : Int)
    (hr : reads_succeed env region) (hN : 0 ≤ N) (hB : 0 < B) (h16 : N % B < 65536) :
    body (success_trace env N B) = region.take N.toNat := by
  have h := div_facts N B hN hB
  have hp : pending_size_of N B (N / B).toNat = N % B := by
    rw [pending_size_eq N B hN hB]; omega
  rw [body_success env N B hN hB, contents_eq env region hr, hp, h.1]

theorem zero_region_length : zero_region.length = 65536 := List.length_replicate _ _

theorem compiled_quotient : ((65536 : Int) / 1024).toNat = 64 := by decide

theorem compiled_pending : pending_size_of 65536 1024 64 = 0 := by decide

/-- C1: with `file_size = 65536` and `chunk_size = 1024`, on a region of at
least 65536 bytes, when every read and every chunk write succeeds the handler
returns `ESP_OK` and the concatenation, in the order written, of the payloads of
all chunks is the region at offsets `[0, 65536)`. -/
theorem C1_body_is_region (env : Env) (region : List Byte)
    (hr : reads_succeed env region) (_hs : sends_succeed env)
    (hlen : 65536 ≤ region.length) :
    ∃ st, download_get_handler env = some (Outcome.returned ESP_OK, st) ∧
      body st.trace = region.take 65536 := by
  obtain ⟨st, h1, h2⟩ := run_ok env region 65536 1024 hr (by decide) (by decide)
    (by exact_mod_cast hlen)
  refine ⟨st, h1, ?_⟩
  rw [h2, body_success_exact env region 65536 1024 hr (by decide) (by decide) (by decide)]
  rfl

theorem C1_body_is_region_witness :
    ∃ st, download_get_handler healthy_env = some (Outcome.returned ESP_OK, st) ∧
      body st.trace = zero_region.take 65536 :=
  C1_body_is_region healthy_env zero_region ⟨rfl, fun _ => rfl⟩ (fun _ => rfl)
    (le_of_eq zero_region_length.symm)

/-- C2: with the compiled constants, when all reads and writes succeed the
handler calls `httpd_resp_send_chunk` exactly 65 times: 64 chunks of 1024
bytes, chunk `k` holding the region bytes `[1024 * k, 1024 * k + 1024)`, then
one zero-length chunk with a `NULL` buffer; it then returns `ESP_OK`. -/
theorem C2_compiled_chunks (env : Env) (region : List Byte)
    (hr : reads_succeed env region) (_hs : sends_succeed env)
    (hlen : 65536 ≤ region.length) :
    ∃ st, download_get_handler env = some (Outcome.returned ESP_OK, st) ∧
      sent_chunks st.trace =
        (List.range 64).map
          (fun k : Nat => (some ((region.drop (1024 * k)).take 1024), (1024 : Int))) ++
          [(none, 0)] ∧
      (sent_chunks st.trace).length = 65 ∧
      ∀ k : Nat, k < 64 → ((region.drop (1024 * k)).take 1024).length = 1024 := by
  obtain ⟨st, h1, h2⟩ := run_ok env region 65536 1024 hr (by decide) (by decide)
    (by exact_mod_cast hlen)
  have hs : sent_chunks st.trace =
      (List.range 64).map
        (fun k : Nat => (some ((region.drop (1024 * k)).take 1024), (1024 : Int))) ++
        [(none, 0)] := by
    rw [h2, sent_chunks_success, compiled_quotient, compiled_pending,
      contents_eq env region hr]
    have hmap : ∀ k : Nat,
        slice region ((k : Int) * 1024) 1024 = (region.drop (1024 * k)).take 1024 := by
      intro k
      have e : ((k : Int) * 1024).toNat = 1024 * k := by omega
      simp [slice, e]
    simp only [lt_irrefl, if_false, List.nil_append, hmap]
  refine ⟨st, h1, hs, ?_, ?_⟩
  · rw [hs]; simp
  · intro k hk
    rw [List.length_take, List.length_drop]
    omega

theorem C2_compiled_chunks_witness :
    ∃ st, download_get_handler healthy_env = some (Outcome.returned ESP_OK, st) ∧
      sent_chunks st.trace =
        (List.range 64).map
          (fun k : Nat => (some ((zero_region.drop (1024 * k)).take 1024), (1024 : Int))) ++
          [(none, 0)] ∧
      (sent_chunks st.trace).length = 65 ∧
      ∀ k : Nat, k < 64 → ((zero_region.drop (1024 * k)).take 1024).length = 1024 :=
  C2_compiled_chunks healthy_env zero_region ⟨rfl, fun _ => rfl⟩ (fun _ => rfl)
    (le_of_eq zero_region_length.symm)

/-- C3, as stated, fails: with `file_size = 65536` and `chunk_size = 100000`
the loop is not entered and `pending_size`, a `uint16_t`, is
`65536 mod 65536 = 0`, so the run writes no data chunk at all, although
`ceil (65536 / 100000) = 1` and the lengths should add up to `65536`. -/
theorem C3_counterexample :
    reads_succeed healthy_env zero_region ∧ sends_succeed healthy_env ∧
      65536 ≤ zero_region.length ∧
      download_get_handler_with healthy_env 65536 100000 =
        some (Outcome.returned ESP_OK, ⟨0, 1, [Event.send_chunk none 0 ESP_OK]⟩) ∧
      data_chunks [Event.send_chunk none 0 ESP_OK] = [] ∧
      ((data_chunks [Event.send_chunk none 0 ESP_OK]).length : Int) ≠
        (65536 + 100000 - 1) / 100000 ∧
      ((data_chunks [Event.send_chunk none 0 ESP_OK]).map Prod.snd).sum ≠ 65536 := by
  refine ⟨⟨rfl, fun _ => rfl⟩, fun _ => rfl, le_of_eq zero_region_length.symm, ?_, ?_, ?_, ?_⟩
  · decide
  · decide
  · decide
  · decide

/-- C3, amended: for `file_size = N > 0` and `chunk_size = B > 0` such that
`N mod B < 65536` (so that the remainder fits `uint16_t pending_size`; this
holds whenever `B <= 65536`), with all reads and writes succeeding, the run
returns `ESP_OK` and the lengths of the data chunks written are `floor (N / B)`
times `B` followed by `N mod B` when that is not zero: there are `ceil (N / B)`
data chunks, every one except possibly the last has length `B`, and the lengths
add up to `N`. -/
theorem C3_block_split (env : Env) (region : List Byte) (N B : Int)
    (hN : 0 < N) (hB : 0 < B) (h16 : N % B < 65536)
    (hr : reads_succeed env region) (_hs : sends_succeed env)
    (hlen : N ≤ (region.length : Int)) :
    ∃ st, download_get_handler_with env N B = some (Outcome.returned ESP_OK, st) ∧
      (data_chunks st.trace).map Prod.snd =
        List.replicate (N / B).toNat B ++ (if N % B = 0 then [] else [N % B]) ∧
      ((data_chunks st.trace).length : Int) = (N + B - 1) / B ∧
      (∀ len ∈ ((data_chunks st.trace).map Prod.snd).dropLast, len = B) ∧
      ((data_chunks st.trace).map Prod.snd).sum = N := by
  obtain ⟨st, h1, h2⟩ := run_ok env region N B hr (le_of_lt hN) hB hlen
  have h := div_facts N B (le_of_lt hN) hB
  have hp : pending_size_of N B (N / B).toNat = N % B := by
    rw [pending_size_eq N B (le_of_lt hN) hB]; omega
  have hl : (data_chunks st.trace).map Prod.snd =
      List.replicate (N / B).toNat B ++ (if N % B = 0 then [] else [N % B]) := by
    rw [h2, data_lens_success env N B hB, hp]
    by_cases h0 : N % B = 0
    · simp [h0]
    · have : 0 < N % B := by omega
      simp [h0, this]
  refine ⟨st, h1, hl, ?_, ?_, ?_⟩
  · have hlen2 : (data_chunks st.trace).length =
        ((data_chunks st.trace).map Prod.snd).length := by simp
    rw [hlen2, hl, ceil_div N B (le_of_lt hN) hB]
    by_cases h0 : N % B = 0 <;> simp [h0]
  · rw [hl]
    intro len hmem
    by_cases h0 : N % B = 0
    · rw [if_pos h0, List.append_nil] at hmem
      exact List.eq_of_mem_replicate (List.dropLast_subset _ hmem)
    · rw [if_neg h0, List.dropLast_concat] at hmem
      exact List.eq_of_mem_replicate hmem
  · rw [hl, List.sum_append, sum_replicate_int]
    by_cases h0 : N % B = 0
    · simp only [h0, if_true, List.sum_nil]; omega
    · simp only [h0, if_false, List.sum_cons, List.sum_nil]; omega

theorem C3_block_split_witness :
    ∃ st, download_get_handler_with healthy_env 65000 1024 =
        some (Outcome.returned ESP_OK, st) ∧
      (data_chunks st.trace).map Prod.snd =
        List.replicate ((65000 : Int) / 1024).toNat 1024 ++
          (if (65000 : Int) % 1024 = 0 then [] else [65000 % 1024]) ∧
      ((data_chunks st.trace).length : Int) = (65000 + 1024 - 1) / 1024 ∧
      (∀ len ∈ ((data_chunks st.trace).map Prod.snd).dropLast, len = 1024) ∧
      ((data_chunks st.trace).map Prod.snd).sum = 65000 :=
  C3_block_split healthy_env zero_region 65000 1024 (by decide) (by decide) (by decide)
    ⟨rfl, fun _ => rfl⟩ (fun _ => rfl) (by rw [zero_region_length]; decide)

/-- C4, as stated, fails: on an environment whose eleventh chunk write (and
every later one) fails after ten chunks were sent, the handler still makes all
64 reads and all 65 calls of `httpd_resp_send_chunk` and returns `ESP_OK`. -/
theorem C4_counterexample :
    (∀ j, j < 10 → broken_pipe_env.send_result j = ESP_OK) ∧
      broken_pipe_env.send_result 10 = ESP_FAIL ∧
      ∃ st, download_get_handler broken_pipe_env = some (Outcome.returned ESP_OK, st) ∧
        (sent_chunks st.trace).length = 65 ∧ (read_calls st.trace).length = 64 := by
  refine ⟨fun j hj => by simp [broken_pipe_env, hj], rfl, ?_⟩
  obtain ⟨st, h1, h2⟩ := run_ok broken_pipe_env zero_region 65536 1024 ⟨rfl, fun _ => rfl⟩
    (by decide) (by decide) (by rw [zero_region_length]; decide)
  refine ⟨st, h1, ?_, ?_⟩
  · rw [h2, sent_chunks_success, compiled_quotient, compiled_pending]; simp
  · rw [h2, read_calls_success, compiled_quotient, compiled_pending]; simp

/-- C4, amended: the handler discards the value of `httpd_resp_send_chunk`.
If the chunk write after ten chunks fails (and whatever the later writes do),
then, the reads succeeding, the handler still makes all 64 reads and all 65
calls of `httpd_resp_send_chunk`, the 64 data chunks and the terminating chunk,
with the failed results recorded in the trace, and returns `ESP_OK`. -/
theorem C4_write_failure_ignored (env : Env) (region : List Byte)
    (hr : reads_succeed env region) (hlen : 65536 ≤ region.length)
    (_h10 : ∀ j, j < 10 → env.send_result j = ESP_OK)
    (_hfail : env.send_result 10 ≠ ESP_OK) :
    ∃ st, download_get_handler env = some (Outcome.returned ESP_OK, st) ∧
      st.trace = success_trace env 65536 1024 ∧
      Event.send_chunk (some (slice region (10 * 1024) 1024)) 1024 (env.send_result 10)
        ∈ st.trace ∧
      sent_chunks st.trace =
        (List.range 64).map
          (fun k : Nat => (some (slice region (k * 1024) 1024), (1024 : Int))) ++
          [(none, 0)] ∧
      (sent_chunks st.trace).length = 65 ∧
      read_calls st.trace = (List.range 64).map (fun k : Nat => ((k : Int) * 1024, 1024)) ∧
      (read_calls st.trace).length = 64 := by
  obtain ⟨st, h1, h2⟩ := run_ok env region 65536 1024 hr (by decide) (by decide)
    (by exact_mod_cast hlen)
  have hs : sent_chunks st.trace =
      (List.range 64).map
        (fun k : Nat => (some (slice region (k * 1024) 1024), (1024 : Int))) ++
        [(none, 0)] := by
    rw [h2, sent_chunks_success, compiled_quotient, compiled_pending,
      contents_eq env region hr]
    simp only [lt_irrefl, if_false, List.nil_append]
  have hrd : read_calls st.trace =
      (List.range 64).map (fun k : Nat => ((k : Int) * 1024, 1024)) := by
    rw [h2, read_calls_success, compiled_quotient, compiled_pending]
    simp only [lt_irrefl, if_false, List.append_nil]
  refine ⟨st, h1, h2, ?_, hs, ?_, hrd, ?_⟩
  · rw [h2, success_trace, compiled_quotient, ← contents_eq env region hr]
    apply List.mem_append_left
    simp [blocks_trace]
  · rw [hs]; simp
  · rw [hrd]; simp

theorem C4_write_failure_ignored_witness :
    ∃ st, download_get_handler broken_pipe_env = some (Outcome.returned ESP_OK, st) ∧
      st.trace = success_trace broken_pipe_env 65536 1024 ∧
      Event.send_chunk (some (slice zero_region (10 * 1024) 1024)) 1024
        (broken_pipe_env.send_result 10) ∈ st.trace ∧
      sent_chunks st.trace =
        (List.range 64).map
          (fun k : Nat => (some (slice zero_region (k * 1024) 1024), (1024 : Int))) ++
          [(none, 0)] ∧
      (sent_chunks st.trace).length = 65 ∧
      read_calls st.trace = (List.range 64).map (fun k : Nat => ((k : Int) * 1024, 1024)) ∧
      (read_calls st.trace).length = 64 :=
  C4_write_failure_ignored broken_pipe_env zero_region ⟨rfl, fun _ => rfl⟩
    (le_of_eq zero_region_length.symm) (fun j hj => by simp [broken_pipe_env, hj])
    (by decide)

/-- C5: when the lookup of the core-dump partition fails, so that the partition
is `NULL` and the first `esp_partition_read` returns an error, the handler is
aborted at that read: no call of `httpd_resp_send_chunk` is made, neither for a
data chunk nor for the terminating chunk, and the handler does not return
`ESP_OK`. -/
theorem C5_lookup_failure_aborts (env : Env) (hp : env.partition = none) :
    ∃ st, download_get_handler env = some (Outcome.aborted, st) ∧
      st.trace = [Event.partition_read 0 1024 ESP_ERR_INVALID_ARG] ∧
      sent_chunks st.trace = [] ∧
      ∀ st2, download_get_handler env ≠ some (Outcome.returned ESP_OK, st2) := by
  have hres : ∀ (j : Nat) (off sz : Int), read_result env j off sz = ESP_ERR_INVALID_ARG := by
    intro j off sz; simp [read_result, hp]
  have h := run_fail_full env 65536 1024 0 (by decide) (by decide) (by decide)
    (by intro j hj; omega) (by rw [hres]; decide)
  rw [hres] at h
  refine ⟨_, h, ?_, ?_, ?_⟩
  · simp [blocks_trace]
  · simp [blocks_trace, sent_chunks]
  · intro st2
    rw [show download_get_handler env = download_get_handler_with env 65536 1024 from rfl, h]
    simp

theorem C5_lookup_failure_aborts_witness :
    ∃ st, download_get_handler no_partition_env = some (Outcome.aborted, st) ∧
      st.trace = [Event.partition_read 0 1024 ESP_ERR_INVALID_ARG] ∧
      sent_chunks st.trace = [] ∧
      ∀ st2, download_get_handler no_partition_env ≠ some (Outcome.returned ESP_OK, st2) :=
  C5_lookup_failure_aborts no_partition_env rfl

/-- C6: a read failure is fatal and is not retried.  For `file_size = N >= 0`
and `chunk_size = B > 0` (the compiled handler is `N = 65536`, `B = 1024`), let
block `k` be a full block (`k < N / B`) or the remainder block (`k = N / B`
with `pending_size > 0`).  If the reads of the blocks before `k` succeed and the
read of block `k` fails, the run is aborted: exactly the `k` preceding data
chunks were written, none for block `k` or a later block and no terminating
chunk, the failed read is the last call of the run, and the handler does not
return. -/
theorem C6_read_failure_is_fatal (env : Env) (N B : Int) (k : Nat)
    (hN : 0 ≤ N) (hB : 0 < B)
    (hk : k < (N / B).toNat ∨ (k = (N / B).toNat ∧ 0 < pending_size_of N B k))
    (hprev : ∀ j : Nat, j < k → read_result env j (j * B) B = ESP_OK)
    (hfail : read_result env k (k * B) (block_size N B k) ≠ ESP_OK) :
    ∃ st, download_get_handler_with env N B = some (Outcome.aborted, st) ∧
      sent_chunks st.trace =
        (List.range k).map (fun j : Nat => (some (slice (contents env) (j * B) B), B)) ∧
      (∀ c ∈ sent_chunks st.trace, c.2 ≠ 0) ∧
      read_calls st.trace =
        (List.range k).map (fun j : Nat => ((j : Int) * B, B)) ++
          [((k : Int) * B, block_size N B k)] ∧
      st.trace.getLast? =
        some (Event.partition_read (k * B) (block_size N B k)
          (read_result env k (k * B) (block_size N B k))) := by
  have hne : ∀ c ∈ (List.range k).map
      (fun j : Nat => (some (slice (contents env) (j * B) B), B)), c.2 ≠ 0 := by
    intro c hc
    obtain ⟨j, _, rfl⟩ := List.mem_map.1 hc
    exact ne_of_gt hB
  rcases hk with hk | ⟨hk, hp⟩
  · have hsz : block_size N B k = B := by simp [block_size, hk]
    rw [hsz] at hfail ⊢
    have h := run_fail_full env N B k hN hB hk hprev hfail
    have hs : sent_chunks (blocks_trace env B k 0 0 ++
        [Event.partition_read (k * B) B (read_result env k (k * B) B)]) =
        (List.range k).map (fun j : Nat => (some (slice (contents env) (j * B) B), B)) := by
      rw [sent_chunks_append, sent_chunks_blocks_zero]; simp [sent_chunks]
    refine ⟨_, h, hs, ?_, ?_, ?_⟩
    · intro c hc
      exact hne c (by simpa only [hs] using hc)
    · simp only
      rw [read_calls_append, read_calls_blocks_zero]; simp [read_calls]
    · simp
  · have hsz : block_size N B k = pending_size_of N B k := by simp [block_size, hk]
    rw [hsz] at hfail ⊢
    subst hk
    have h := run_fail_pending env N B hN hB hprev hp hfail
    have hs : sent_chunks (blocks_trace env B (N / B).toNat 0 0 ++
        [Event.partition_read ((N / B).toNat * B) (pending_size_of N B (N / B).toNat)
          (read_result env (N / B).toNat ((N / B).toNat * B)
            (pending_size_of N B (N / B).toNat))]) =
        (List.range (N / B).toNat).map
          (fun j : Nat => (some (slice (contents env) (j * B) B), B)) := by
      rw [sent_chunks_append, sent_chunks_blocks_zero]; simp [sent_chunks]
    refine ⟨_, h, hs, ?_, ?_, ?_⟩
    · intro c hc
      exact hne c (by simpa only [hs] using hc)
    · simp only
      rw [read_calls_append, read_calls_blocks_zero]; simp [read_calls]
    · simp

theorem C6_read_failure_is_fatal_witness :
    ∃ st, download_get_handler_with flash_fault_env 65536 1024 = some (Outcome.aborted, st) ∧
      sent_chunks st.trace =
        (List.range 3).map
          (fun j : Nat => (some (slice (contents flash_fault_env) (j * 1024) 1024), (1024 : Int))) ∧
      (∀ c ∈ sent_chunks st.trace, c.2 ≠ 0) ∧
      read_calls st.trace =
        (List.range 3).map (fun j : Nat => ((j : Int) * 1024, (1024 : Int))) ++
          [(((3 : Nat) : Int) * 1024, block_size 65536 1024 3)] ∧
      st.trace.getLast? =
        some (Event.partition_read ((3 : Nat) * 1024) (block_size 65536 1024 3)
          (read_result flash_fault_env 3 ((3 : Nat) * 1024) (block_size 65536 1024 3))) :=
  C6_read_failure_is_fatal flash_fault_env 65536 1024 3 (by decide) (by decide)
    (Or.inl (by decide))
    (by
      intro j hj
      have h3 : (j : Int) * 1024 + 1024 ≤ 65536 := by omega
      have hj3 : j ≠ 3 := by omega
      simp [read_result, flash_fault_env, zero_region_length, hj3]
      omega)
    (by
      have hb : block_size 65536 1024 3 = 1024 := by decide
      rw [hb]
      simp [read_result, flash_fault_env])

/-- C7: for `file_size = N >= 0` and `chunk_size = B > 0`, in a run in which
all reads and writes succeed the handler returns `ESP_OK`, the last call it
makes is `httpd_resp_send_chunk(req, NULL, 0)`, and the chunks written are some
chunks of non-zero length followed by that one zero-length chunk: the
terminating chunk is written exactly once, last, and no zero-length data chunk
precedes it. -/
theorem C7_single_terminator (env : Env) (region : List Byte) (N B : Int)
    (hN : 0 ≤ N) (hB : 0 < B)
    (hr : reads_succeed env region) (hs : sends_succeed env)
    (hlen : N ≤ (region.length : Int)) :
    ∃ st, download_get_handler_with env N B = some (Outcome.returned ESP_OK, st) ∧
      st.trace.getLast? = some (Event.send_chunk none 0 ESP_OK) ∧
      (∃ pre, sent_chunks st.trace = pre ++ [(none, 0)] ∧ ∀ c ∈ pre, c.2 ≠ 0) ∧
      (sent_chunks st.trace).filter (fun c => decide (c.2 = 0)) = [(none, 0)] := by
  obtain ⟨st, h1, h2⟩ := run_ok env region N B hr hN hB hlen
  have hpre : ∀ c ∈ (List.range (N / B).toNat).map
        (fun k : Nat => (some (slice (contents env) (k * B) B), B)) ++
      (if 0 < pending_size_of N B (N / B).toNat then
        [(some (slice (contents env) ((N / B).toNat * B) (pending_size_of N B (N / B).toNat)),
          pending_size_of N B (N / B).toNat)]
      else []), c.2 ≠ 0 := by
    intro c hc
    rcases List.mem_append.1 hc with hc | hc
    · obtain ⟨j, _, rfl⟩ := List.mem_map.1 hc
      exact ne_of_gt hB
    · by_cases hp : 0 < pending_size_of N B (N / B).toNat
      · rw [if_pos hp, List.mem_singleton] at hc
        rw [hc]; exact ne_of_gt hp
      · rw [if_neg hp] at hc; simp at hc
  have hsent : sent_chunks st.trace =
      ((List.range (N / B).toNat).map
        (fun k : Nat => (some (slice (contents env) (k * B) B), B)) ++
      (if 0 < pending_size_of N B (N / B).toNat then
        [(some (slice (contents env) ((N / B).toNat * B) (pending_size_of N B (N / B).toNat)),
          pending_size_of N B (N / B).toNat)]
      else [])) ++ [(none, 0)] := by
    rw [h2, sent_chunks_success, List.append_assoc]
  refine ⟨st, h1, ?_, ⟨_, hsent, hpre⟩, ?_⟩
  · rw [h2, success_trace, tail_trace]
    by_cases hp : 0 < pending_size_of N B (N / B).toNat
    · simp [hp, hs ((N / B).toNat + 1)]
    · simp [hp, hs (N / B).toNat]
  · rw [hsent, List.filter_append]
    have hnone : List.filter (fun c : Option (List Byte) × Int => decide (c.2 = 0))
        ((List.range (N / B).toNat).map
          (fun k : Nat => (some (slice (contents env) (k * B) B), B)) ++
        (if 0 < pending_size_of N B (N / B).toNat then
          [(some (slice (contents env) ((N / B).toNat * B)
              (pending_size_of N B (N / B).toNat)),
            pending_size_of N B (N / B).toNat)]
        else [])) = [] := by
      rw [List.filter_eq_nil_iff]
      intro c hc
      simpa using hpre c hc
    rw [hnone]
    simp

theorem C7_single_terminator_witness :
    ∃ st, download_get_handler_with healthy_env 65536 1024 =
        some (Outcome.returned ESP_OK, st) ∧
      st.trace.getLast? = some (Event.send_chunk none 0 ESP_OK) ∧
      (∃ pre, sent_chunks st.trace = pre ++ [(none, 0)] ∧ ∀ c ∈ pre, c.2 ≠ 0) ∧
      (sent_chunks st.trace).filter (fun c => decide (c.2 = 0)) = [(none, 0)] :=
  C7_single_terminator healthy_env zero_region 65536 1024 (by decide) (by decide)
    ⟨rfl, fun _ => rfl⟩ (fun _ => rfl) (by rw [zero_region_length]; decide)

/-- C8: for `file_size = N >= 0` and `chunk_size = B > 0` and every
environment, the run ends and every call of `esp_partition_read` it made has
`0 <= offset`, `length <= B` and `offset + length <= N`; the offsets of the
successive reads are `0, B, 2 * B, ...`, strictly increasing. -/
theorem C8_reads_within_region (env : Env) (N B : Int) (hN : 0 ≤ N) (hB : 0 < B) :
    ∃ o st, download_get_handler_with env N B = some (o, st) ∧
      (∀ c ∈ read_calls st.trace, 0 ≤ c.1 ∧ c.2 ≤ B ∧ c.1 + c.2 ≤ N) ∧
      (read_calls st.trace).map Prod.fst =
        (List.range (read_calls st.trace).length).map (fun j : Nat => (j : Int) * B) ∧
      ((read_calls st.trace).map Prod.fst).Pairwise (fun a b => a < b) := by
  obtain ⟨o, st, h1, hshape⟩ := reads_shape env N B hN hB
  have hd := div_facts N B hN hB
  have hpl := pending_size_le N B hN hB
  have hfull : ∀ k : Nat, k ≤ (N / B).toNat →
      ∀ c ∈ (List.range k).map (fun j : Nat => ((j : Int) * B, B)),
        0 ≤ c.1 ∧ c.2 ≤ B ∧ c.1 + c.2 ≤ N := by
    intro k hk c hc
    obtain ⟨j, hj, rfl⟩ := List.mem_map.1 hc
    have hjk : j < k := List.mem_range.1 hj
    have h1 : ((j : Int) + 1) * B ≤ ((N / B).toNat : Int) * B :=
      Int.mul_le_mul_of_nonneg_right (by omega) (le_of_lt hB)
    have h2 : ((j : Int) + 1) * B = j * B + B := by ring
    have h3 : 0 ≤ (j : Int) * B := Int.mul_nonneg (Int.ofNat_nonneg j) (le_of_lt hB)
    exact ⟨h3, le_refl _, by simp only; omega⟩
  have hoff : ∀ k : Nat,
      ((List.range k).map (fun j : Nat => ((j : Int) * B, B))).map Prod.fst =
        (List.range k).map (fun j : Nat => (j : Int) * B) := by
    intro k; rw [List.map_map]; rfl
  refine ⟨o, st, h1, ?_⟩
  rcases hshape with ⟨k, hk, hrd⟩ | ⟨hp, hrd⟩
  · have hmapk : (read_calls st.trace).map Prod.fst =
        (List.range (read_calls st.trace).length).map (fun j : Nat => (j : Int) * B) := by
      rw [hrd, hoff]; simp
    refine ⟨?_, hmapk, ?_⟩
    · rw [hrd]; exact hfull k hk
    · rw [hmapk]; exact full_offsets_lt B hB _
  · have hmapk : (read_calls st.trace).map Prod.fst =
        (List.range (read_calls st.trace).length).map (fun j : Nat => (j : Int) * B) := by
      rw [hrd, List.map_append, hoff, List.map_singleton,
        range_map_succ (fun j : Nat => (j : Int) * B)]
      simp
    refine ⟨?_, hmapk, ?_⟩
    · rw [hrd]
      intro c hc
      rcases List.mem_append.1 hc with hc | hc
      · exact hfull _ (le_refl _) c hc
      · rw [List.mem_singleton] at hc
        rw [hc]
        have h3 : 0 ≤ ((N / B).toNat : Int) * B :=
          Int.mul_nonneg (Int.ofNat_nonneg _) (le_of_lt hB)
        exact ⟨h3, by simp only; omega, by simp only; omega⟩
    · rw [hmapk]; exact full_offsets_lt B hB _

theorem C8_reads_within_region_witness :
    ∃ o st, download_get_handler_with healthy_env 65536 1024 = some (o, st) ∧
      (∀ c ∈ read_calls st.trace, 0 ≤ c.1 ∧ c.2 ≤ 1024 ∧ c.1 + c.2 ≤ 65536) ∧
      (read_calls st.trace).map Prod.fst =
        (List.range (read_calls st.trace).length).map (fun j : Nat => (j : Int) * 1024) ∧
      ((read_calls st.trace).map Prod.fst).Pairwise (fun a b => a < b) :=
  C8_reads_within_region healthy_env 65536 1024 (by decide) (by decide)

/-- C9: for `file_size = N >= 0` and `chunk_size = B > 0` with `N mod B = 0`,
with all reads and writes succeeding, no short final block is emitted:
`pending_size` is zero, so the branch `pending_size > 0` is not taken, the run
makes exactly the `N / B` reads of the full blocks and writes exactly `N / B`
data chunks, each of length `B`, before the terminating chunk. -/
theorem C9_no_short_block (env : Env) (region : List Byte) (N B : Int)
    (hN : 0 ≤ N) (hB : 0 < B) (hmod : N % B = 0)
    (hr : reads_succeed env region) (_hs : sends_succeed env)
    (hlen : N ≤ (region.length : Int)) :
    ∃ st, download_get_handler_with env N B = some (Outcome.returned ESP_OK, st) ∧
      pending_size_of N B (N / B).toNat = 0 ∧
      read_calls st.trace =
        (List.range (N / B).toNat).map (fun k : Nat => ((k : Int) * B, B)) ∧
      sent_chunks st.trace =
        (List.range (N / B).toNat).map
          (fun k : Nat => (some (slice region (k * B) B), B)) ++ [(none, 0)] ∧
      (data_chunks st.trace).map Prod.snd = List.replicate (N / B).toNat B ∧
      ((data_chunks st.trace).length : Int) = N / B := by
  obtain ⟨st, h1, h2⟩ := run_ok env region N B hr hN hB hlen
  have hp : pending_size_of N B (N / B).toNat = 0 := by
    rw [pending_size_eq N B hN hB, hmod]; rfl
  have hnp : ¬ 0 < pending_size_of N B (N / B).toNat := by omega
  have hl : (data_chunks st.trace).map Prod.snd = List.replicate (N / B).toNat B := by
    rw [h2, data_lens_success env N B hB, if_neg hnp, List.append_nil]
  refine ⟨st, h1, hp, ?_, ?_, hl, ?_⟩
  · rw [h2, read_calls_success, if_neg hnp, List.append_nil]
  · rw [h2, sent_chunks_success, if_neg hnp, List.nil_append, contents_eq env region hr]
  · have hlen2 : (data_chunks st.trace).length =
        ((data_chunks st.trace).map Prod.snd).length := by simp
    rw [hlen2, hl, List.length_replicate,
      Int.toNat_of_nonneg (Int.ediv_nonneg hN (le_of_lt hB))]

theorem C9_no_short_block_witness :
    ∃ st, download_get_handler_with healthy_env 65536 1024 =
        some (Outcome.returned ESP_OK, st) ∧
      pending_size_of 65536 1024 ((65536 : Int) / 1024).toNat = 0 ∧
      read_calls st.trace =
        (List.range ((65536 : Int) / 1024).toNat).map
          (fun k : Nat => ((k : Int) * 1024, (1024 : Int))) ∧
      sent_chunks st.trace =
        (List.range ((65536 : Int) / 1024).toNat).map
          (fun k : Nat => (some (slice zero_region (k * 1024) 1024), (1024 : Int))) ++
          [(none, 0)] ∧
      (data_chunks st.trace).map Prod.snd =
        List.replicate ((65536 : Int) / 1024).toNat (1024 : Int) ∧
      ((data_chunks st.trace).length : Int) = 65536 / 1024 :=
  C9_no_short_block healthy_env zero_region 65536 1024 (by decide) (by decide) (by decide)
    ⟨rfl, fun _ => rfl⟩ (fun _ => rfl) (by rw [zero_region_length]; decide)

theorem scenario_quotient : ((65000 : Int) / 1024).toNat = 63 := by decide

theorem scenario_pending : pending_size_of 65000 1024 63 = 488 := by decide

/-- C10: with `file_size = 65000` and `chunk_size = 1024`, all reads and writes
succeeding, the run reads and writes 63 full blocks of 1024 bytes at offsets
`0, 1024, ..., 63488`, then one block of 488 bytes read from offset `64512`,
then the zero-length terminating chunk: 65 calls of `httpd_resp_send_chunk`. -/
theorem C10_scenario_65000 (env : Env) (region : List Byte)
    (hr : reads_succeed env region) (_hs : sends_succeed env)
    (hlen : 65000 ≤ region.length) :
    ∃ st, download_get_handler_with env 65000 1024 = some (Outcome.returned ESP_OK, st) ∧
      read_calls st.trace =
        (List.range 63).map (fun k : Nat => ((k : Int) * 1024, (1024 : Int))) ++
          [(64512, 488)] ∧
      sent_chunks st.trace =
        (List.range 63).map
          (fun k : Nat => (some (slice region (k * 1024) 1024), (1024 : Int))) ++
          [(some (slice region 64512 488), 488), (none, 0)] ∧
      (sent_chunks st.trace).length = 65 ∧
      (∀ k : Nat, k < 63 → (slice region (k * 1024) 1024).length = 1024) ∧
      (slice region 64512 488).length = 488 := by
  obtain ⟨st, h1, h2⟩ := run_ok env region 65000 1024 hr (by decide) (by decide)
    (by exact_mod_cast hlen)
  have hs : sent_chunks st.trace =
      (List.range 63).map
        (fun k : Nat => (some (slice region (k * 1024) 1024), (1024 : Int))) ++
        [(some (slice region 64512 488), 488), (none, 0)] := by
    rw [h2, sent_chunks_success, scenario_quotient, scenario_pending,
      contents_eq env region hr]
    simp
  refine ⟨st, h1, ?_, hs, ?_, ?_, ?_⟩
  · rw [h2, read_calls_success, scenario_quotient, scenario_pending]
    simp
  · rw [hs]; simp
  · intro k hk
    simp only [slice, List.length_take, List.length_drop]
    omega
  · simp only [slice, List.length_take, List.length_drop]
    omega

theorem C10_scenario_65000_witness :
    ∃ st, download_get_handler_with healthy_env 65000 1024 =
        some (Outcome.returned ESP_OK, st) ∧
      read_calls st.trace =
        (List.range 63).map (fun k : Nat => ((k : Int) * 1024, (1024 : Int))) ++
          [(64512, 488)] ∧
      sent_chunks st.trace =
        (List.range 63).map
          (fun k : Nat => (some (slice zero_region (k * 1024) 1024), (1024 : Int))) ++
          [(some (slice zero_region 64512 488), 488), (none, 0)] ∧
      (sent_chunks st.trace).length = 65 ∧
      (∀ k : Nat, k < 63 → (slice zero_region (k * 1024) 1024).length = 1024) ∧
      (slice zero_region 64512 488).length = 488 :=
  C10_scenario_65000 healthy_env zero_region ⟨rfl, fun _ => rfl⟩ (fun _ => rfl)
    (by rw [zero_region_length]; decide)

end CoreDump
